import Mathlib

/-
Shallow embedding of the voice-assistant client in src/App.tsx and
src/types.ts.  The React component state (useState hooks and useRef cells)
is collected into one record `AppState`; each callback of the component
becomes a Lean function from inputs and state to state (plus emitted
effects where the claims need them).  JavaScript numbers that hold audio
times are modelled as rationals; the millisecond clock `Date.now()` as a
natural number passed to the handler that reads it.
-/

/-- AssistantStatus from src/types.ts. -/
inductive AssistantStatus where
  | idle
  | listening
  | speaking
  | thinking
  | error
deriving DecidableEq, Repr

/-- Speaker tag of a conversation message, from src/types.ts
(the union type of the literals user and ai). -/
inductive Speaker where
  | user
  | ai
deriving DecidableEq, Repr

/-- Message from src/types.ts: `{ id: number; speaker; text: string }`.
The id is the millisecond clock value used at creation. -/
structure Message where
  id : Nat
  speaker : Speaker
  text : String
deriving DecidableEq, Repr

/-- Transcription object carried by a server message
(`serverContent.outputTranscription` / `serverContent.inputTranscription`),
of which only the `text` field is read (App.tsx lines 64-68). -/
structure Transcription where
  text : String
deriving DecidableEq, Repr

/-- inlineData of a model-turn part.  The source reads the base64 string
`inlineData.data`; we model it by the byte length of the decoded payload.
The JS string is truthy iff it is nonempty, i.e. iff the byte length is
nonzero. -/
structure InlineData where
  byteLen : Nat
deriving DecidableEq, Repr

/-- Part of a model turn; only `inlineData` is read (App.tsx line 86).
Named TurnPart to avoid clashing with an existing Lean name. -/
structure TurnPart where
  inlineData : Option InlineData
deriving DecidableEq, Repr

/-- modelTurn of a server message, carrying audio parts. -/
structure ModelTurn where
  parts : List TurnPart
deriving DecidableEq, Repr

/-- serverContent of a LiveServerMessage, with the fields App.tsx reads:
outputTranscription, inputTranscription, turnComplete, modelTurn,
interrupted. -/
structure ServerContent where
  outputTranscription : Option Transcription
  inputTranscription : Option Transcription
  turnComplete : Bool
  modelTurn : Option ModelTurn
  interrupted : Bool
deriving DecidableEq, Repr

/-- LiveServerMessage as consumed by handleMessage: every access in the
source goes through the optional chain `message.serverContent?.…`. -/
structure LiveServerMessage where
  serverContent : Option ServerContent
deriving DecidableEq, Repr

/-- AudioContext handle; `closed` models whether `state` equals the
string closed (read in stopSession, App.tsx lines 150-157). -/
structure AudioCtxHandle where
  closed : Bool
deriving DecidableEq, Repr

/-- App component state: the three useState values (status, conversation,
error) and the useRef cells (session promise, audio contexts, microphone
stream, script processor node, the two transcription accumulators, the
playback cursor, the active source set).  The set of active
AudioBufferSourceNode handles is modelled as the list of their ids, with
`nextSourceId` a fresh-id counter for newly created source nodes. -/
structure AppState where
  status : AssistantStatus
  conversation : List Message
  error : Option String
  liveSession : Option Unit
  inputAudioContext : Option AudioCtxHandle
  outputAudioContext : Option AudioCtxHandle
  microphoneStream : Option Unit
  scriptProcessorNode : Option Unit
  userInput : String
  aiOutput : String
  nextAudioStartTime : ℚ
  audioSources : List Nat
  nextSourceId : Nat
deriving DecidableEq, Repr

/-- Initial component state: all useState initial values and all refs null
(App.tsx lines 42-55). -/
def initialAppState : AppState where
  status := AssistantStatus.idle
  conversation := []
  error := none
  liveSession := none
  inputAudioContext := none
  outputAudioContext := none
  microphoneStream := none
  scriptProcessorNode := none
  userInput := ""
  aiOutput := ""
  nextAudioStartTime := 0
  audioSources := []
  nextSourceId := 0

/-- Optional chain `message.serverContent?.outputTranscription`. -/
def scOutputTranscription (m : LiveServerMessage) : Option Transcription :=
  m.serverContent.bind (fun sc => sc.outputTranscription)

/-- Optional chain `message.serverContent?.inputTranscription`. -/
def scInputTranscription (m : LiveServerMessage) : Option Transcription :=
  m.serverContent.bind (fun sc => sc.inputTranscription)

/-- Truthiness of `message.serverContent?.turnComplete`. -/
def turnCompleteOf (m : LiveServerMessage) : Bool :=
  match m.serverContent with
  | some sc => sc.turnComplete
  | none => false

/-- Truthiness of `message.serverContent?.interrupted`. -/
def interruptedOf (m : LiveServerMessage) : Bool :=
  match m.serverContent with
  | some sc => sc.interrupted
  | none => false

/-- Optional chain `message.serverContent?.modelTurn?.parts[0]?.inlineData?.data`
(App.tsx line 86), resolved to the decoded byte length; `none` also when
the base64 string is empty (falsy), i.e. the byte length is zero. -/
def base64AudioOf (m : LiveServerMessage) : Option Nat :=
  match m.serverContent with
  | none => none
  | some sc =>
    match sc.modelTurn with
    | none => none
    | some mt =>
      match mt.parts.head? with
      | none => none
      | some p =>
        match p.inlineData with
        | none => none
        | some d => if d.byteLen = 0 then none else some d.byteLen

/-- Modelled from the spec: `decodeAudioData` lives in src/utils/audio,
which is not present in the repository snapshot.  Per the spec it
interprets the bytes as little-endian 16-bit PCM at the given sample rate
(24 kHz mono here), so a payload of `n` bytes yields `n / 2` samples and a
buffer of duration `(n / 2) / 24000` seconds. -/
def audioDuration (byteLen : Nat) : ℚ :=
  ((byteLen : ℚ) / 2) / 24000

/-- Scheduling effect emitted by the audio branch of handleMessage:
`source.start(nextAudioStartTime.current)` on a buffer of the given
duration (App.tsx lines 103-104). -/
structure ScheduledAudio where
  start : ℚ
  duration : ℚ
deriving DecidableEq, Repr

/-- Model of JavaScript `String.prototype.trim` as called on the
accumulators (App.tsx lines 71-72): drop whitespace characters from both
ends. -/
def jsTrim (s : String) : String :=
  ⟨((s.data.dropWhile Char.isWhitespace).reverse.dropWhile Char.isWhitespace).reverse⟩

/-- Transcription accumulation stage of handleMessage (App.tsx lines
64-68): `if (output) aiOutput += text; else if (input) userInput += text`.
Note the else-if: when a message carries both, only the output fragment is
appended. -/
def applyTranscription (m : LiveServerMessage) (s : AppState) : AppState :=
  match scOutputTranscription m with
  | some t => { s with aiOutput := s.aiOutput ++ t.text }
  | none =>
    match scInputTranscription m with
    | some t => { s with userInput := s.userInput ++ t.text }
    | none => s

/-- Turn-completion stage of handleMessage (App.tsx lines 70-84): on
turnComplete, trim both accumulators, append a user message (id
`Date.now()`) if its trimmed text is nonempty, then an ai message (id
`Date.now() + 1`) if its trimmed text is nonempty, clear both accumulators
and set status to listening.  `now` is the millisecond clock reading. -/
def applyTurnComplete (now : Nat) (m : LiveServerMessage) (s : AppState) : AppState :=
  if turnCompleteOf m then
    let userText := jsTrim s.userInput
    let aiText := jsTrim s.aiOutput
    let s1 := if userText = "" then s else
      { s with conversation := s.conversation ++ [⟨now, Speaker.user, userText⟩] }
    let s2 := if aiText = "" then s1 else
      { s1 with conversation := s1.conversation ++ [⟨now + 1, Speaker.ai, aiText⟩] }
    { s2 with userInput := "", aiOutput := "", status := AssistantStatus.listening }
  else s

/-- Audio-playback stage of handleMessage (App.tsx lines 86-106): when a
nonempty audio payload arrives and the output context exists, set status
speaking, raise the cursor to `max(cursor, currentTime)`, start a new
source at the cursor, advance the cursor by the buffer duration and add
the source to the active set.  Returns the scheduling effects emitted. -/
def applyAudio (currentTime : ℚ) (m : LiveServerMessage) (s : AppState) :
    AppState × List ScheduledAudio :=
  match base64AudioOf m, s.outputAudioContext with
  | some n, some _ =>
    let s1 := { s with status := AssistantStatus.speaking }
    let startT := max s1.nextAudioStartTime currentTime
    let dur := audioDuration n
    ({ s1 with
        nextAudioStartTime := startT + dur
        audioSources := s1.audioSources ++ [s1.nextSourceId]
        nextSourceId := s1.nextSourceId + 1 },
     [⟨startT, dur⟩])
  | _, _ => (s, [])

/-- Interruption stage of handleMessage (App.tsx lines 108-115): stop and
remove every active source, reset the cursor to 0 and set status
listening. -/
def applyInterrupted (m : LiveServerMessage) (s : AppState) : AppState :=
  if interruptedOf m then
    { s with
        audioSources := []
        nextAudioStartTime := 0
        status := AssistantStatus.listening }
  else s

/-- handleMessage (App.tsx lines 63-116): the four stages in source order.
`now` is the value of `Date.now()` during this call and `currentTime` the
output AudioContext clock; both are inputs from the environment. -/
def handleMessage (now : Nat) (currentTime : ℚ) (message : LiveServerMessage)
    (s : AppState) : AppState × List ScheduledAudio :=
  let s1 := applyTranscription message s
  let s2 := applyTurnComplete now message s1
  let p := applyAudio currentTime message s2
  (applyInterrupted message p.1, p.2)

/-- Processes a list of (clock, output-clock, message) events through
handleMessage in order, concatenating the emitted scheduling effects. -/
def processMessages : List (Nat × ℚ × LiveServerMessage) → AppState →
    AppState × List ScheduledAudio
  | [], s => (s, [])
  | (now, ct, m) :: rest, s =>
    let p := handleMessage now ct m s
    let q := processMessages rest p.1
    (q.1, p.2 ++ q.2)

/-- handleClose (App.tsx lines 125-129): reads the current status and logs
"Session closed." unless it is error; returns the state untouched together
with the log lines produced. -/
def handleClose (s : AppState) : AppState × List String :=
  (s, if s.status ≠ AssistantStatus.error then ["Session closed."] else [])

/-- Outcomes of the external operations stopSession awaits: resolution of
the session promise, `session.close()`, and `close()` on each
AudioContext.  A `false` flag means that operation rejects/throws when it
is actually performed. -/
structure StopEnv where
  sessionAwaitOk : Bool
  sessionCloseOk : Bool
  inputCtxCloseOk : Bool
  outputCtxCloseOk : Bool
deriving DecidableEq, Repr

/-- stopSession (App.tsx lines 131-158): sets status idle first, then —
each step guarded by a null check — awaits and closes the session and
nulls the ref, stops the microphone tracks, disconnects the script
processor node, and closes each AudioContext whose state is not already
closed.  A rejection of an awaited external operation propagates as a
thrown error (`Except.error`); `track.stop()` and `disconnect()` do not
throw. -/
def stopSession (env : StopEnv) (s : AppState) : Except String AppState := do
  let s := { s with status := AssistantStatus.idle }
  let s ←
    if s.liveSession.isSome then
      if !env.sessionAwaitOk then throw ("session promise rejected")
      else if !env.sessionCloseOk then throw ("session close threw")
      else pure { s with liveSession := none }
    else pure s
  let s := if s.microphoneStream.isSome then { s with microphoneStream := none } else s
  let s := if s.scriptProcessorNode.isSome then { s with scriptProcessorNode := none } else s
  let s ←
    match s.inputAudioContext with
    | some c =>
      if !c.closed then
        if !env.inputCtxCloseOk then throw ("input context close rejected")
        else pure { s with inputAudioContext := none }
      else pure s
    | none => pure s
  let s ←
    match s.outputAudioContext with
    | some c =>
      if !c.closed then
        if !env.outputCtxCloseOk then throw ("output context close rejected")
        else pure { s with outputAudioContext := none }
      else pure s
    | none => pure s
  pure s

/-- startSession (App.tsx lines 160-221).  `micGranted` is the outcome of
`navigator.mediaDevices.getUserMedia`: when false the await throws
(permission denied) and the catch block runs — record the user-facing
error message, set status error, and await stopSession (which needs the
StopEnv for its own external calls).  When true, the try block stores the
stream, creates both audio contexts, resets the playback cursor and
synchronously stores the (pending) session promise from
`ai.live.connect`; the onopen callback that later attaches the script
processor is a separate event and not part of this call. -/
def startSession (micGranted : Bool) (env : StopEnv) (s : AppState) :
    Except String AppState :=
  let s := { s with error := none, status := AssistantStatus.thinking }
  if micGranted then
    let s := { s with microphoneStream := some () }
    let s := { s with
        inputAudioContext := some ⟨false⟩
        outputAudioContext := some ⟨false⟩ }
    let s := { s with nextAudioStartTime := 0 }
    Except.ok { s with liveSession := some () }
  else
    let s := { s with
        error := some ("Could not access microphone. Please grant permission and try again.")
        status := AssistantStatus.error }
    stopSession env s

/-- Truncation of a rational toward zero, as JavaScript converts a number
to an integer before taking it mod 2^16 when storing into an Int16Array
(`int16[i] = inputData[i] * 32768`, App.tsx line 187). -/
def ratTrunc (x : ℚ) : ℤ :=
  x.num.tdiv x.den

/-- Wrap of an integer into the signed 16-bit range [-32768, 32768), as
performed by an Int16Array element store. -/
def toInt16 (x : ℤ) : ℤ :=
  (x + 32768) % 65536 - 32768

/-- Conversion of one floating-point sample by the capture pipeline
(App.tsx lines 186-188): multiply by 32768, then store into an Int16Array
element, which truncates toward zero and wraps mod 2^16 into the signed
16-bit range. -/
def convertSample (sample : ℚ) : ℤ :=
  toInt16 (ratTrunc (sample * 32768))

/-- Conversion of a whole capture block by the onaudioprocess loop
(App.tsx lines 183-188). -/
def processAudioBlock (inputData : List ℚ) : List ℤ :=
  inputData.map convertSample

/-- Server message carrying only a user-side input transcription
fragment. -/
def mkInputMsg (t : String) : LiveServerMessage :=
  ⟨some { outputTranscription := none, inputTranscription := some ⟨t⟩,
          turnComplete := false, modelTurn := none, interrupted := false }⟩

/-- Server message carrying only an assistant-side output transcription
fragment. -/
def mkOutputMsg (t : String) : LiveServerMessage :=
  ⟨some { outputTranscription := some ⟨t⟩, inputTranscription := none,
          turnComplete := false, modelTurn := none, interrupted := false }⟩

/-- Server message carrying only the turn-complete signal. -/
def mkTurnCompleteMsg : LiveServerMessage :=
  ⟨some { outputTranscription := none, inputTranscription := none,
          turnComplete := true, modelTurn := none, interrupted := false }⟩

/-- Server message carrying only the interrupted signal. -/
def mkInterruptedMsg : LiveServerMessage :=
  ⟨some { outputTranscription := none, inputTranscription := none,
          turnComplete := false, modelTurn := none, interrupted := true }⟩

/-- Server message carrying only an audio payload of `n` decoded bytes. -/
def mkAudioMsg (n : Nat) : LiveServerMessage :=
  ⟨some { outputTranscription := none, inputTranscription := none,
          turnComplete := false, modelTurn := some ⟨[⟨some ⟨n⟩⟩]⟩,
          interrupted := false }⟩

/-- Server message carrying both an output fragment and an input fragment
at once (the wire shape allows any combination of the fields). -/
def mkBothTransMsg (outT inT : String) : LiveServerMessage :=
  ⟨some { outputTranscription := some ⟨outT⟩, inputTranscription := some ⟨inT⟩,
          turnComplete := false, modelTurn := none, interrupted := false }⟩

/-- Component state right after the session has opened: status listening,
everything else still initial (the resource refs do not matter for the
message-handling scenarios below). -/
def listeningState : AppState :=
  { initialAppState with status := AssistantStatus.listening }

/-- Event sequence of the two-speaker scenario: user fragments Hel, lo and
assistant fragments Hi and there, then turn-complete, all at clock 100. -/
def helloEvents : List (Nat × ℚ × LiveServerMessage) :=
  [(100, 0, mkInputMsg ("Hel")), (100, 0, mkInputMsg ("lo")),
   (100, 0, mkOutputMsg ("Hi ")), (100, 0, mkOutputMsg ("there")),
   (100, 0, mkTurnCompleteMsg)]

/-- Event sequence with two completed turns whose clock readings are 5 and
6 (a nondecreasing millisecond clock): the first turn carries both a user
and an assistant utterance, the second a user utterance only. -/
def twoTurnEvents : List (Nat × ℚ × LiveServerMessage) :=
  [(5, 0, mkInputMsg ("a")), (5, 0, mkOutputMsg ("x")), (5, 0, mkTurnCompleteMsg),
   (6, 0, mkInputMsg ("b")), (6, 0, mkTurnCompleteMsg)]

/-- Clock-separation condition on an event list: the millisecond clock
readings of successive turn-complete events grow by at least 2, starting
no lower than the given bound. -/
def clockSep : Nat → List (Nat × ℚ × LiveServerMessage) → Bool
  | _, [] => true
  | b, (now, _, m) :: rest =>
    if turnCompleteOf m then decide (b ≤ now) && clockSep (now + 2) rest
    else clockSep b rest

/-- Upper bound (exclusive) on the message ids produced by an event list
satisfying `clockSep`: the bound after the last turn-complete event. -/
def clockBound : Nat → List (Nat × ℚ × LiveServerMessage) → Nat
  | b, [] => b
  | b, (now, _, m) :: rest =>
    if turnCompleteOf m then clockBound (now + 2) rest
    else clockBound b rest

/-- Events feeding a sequence of pure audio payloads to handleMessage:
each pair gives the output-clock reading at the moment the payload is
handled and its decoded byte length. -/
def audioEvents (ps : List (ℚ × Nat)) : List (Nat × ℚ × LiveServerMessage) :=
  ps.map (fun p => (0, p.1, mkAudioMsg p.2))

/-- Frame of the audio stage: it never touches the accumulators, the
conversation log, or the audio-context refs. -/
theorem applyAudio_frame (ct : ℚ) (m : LiveServerMessage) (s : AppState) :
    (applyAudio ct m s).1.userInput = s.userInput ∧
    (applyAudio ct m s).1.aiOutput = s.aiOutput ∧
    (applyAudio ct m s).1.conversation = s.conversation ∧
    (applyAudio ct m s).1.outputAudioContext = s.outputAudioContext := by
  unfold applyAudio
  rcases hb : base64AudioOf m with _ | n <;>
    rcases hc : s.outputAudioContext with _ | c <;> simp [hb, hc]

/-- Frame of the interruption stage: it never touches the accumulators,
the conversation log, or the audio-context refs. -/
theorem applyInterrupted_frame (m : LiveServerMessage) (s : AppState) :
    (applyInterrupted m s).userInput = s.userInput ∧
    (applyInterrupted m s).aiOutput = s.aiOutput ∧
    (applyInterrupted m s).conversation = s.conversation ∧
    (applyInterrupted m s).outputAudioContext = s.outputAudioContext := by
  unfold applyInterrupted
  split <;> simp

/-- Frame of the transcription stage: it never touches the conversation
log or the audio-context refs. -/
theorem applyTranscription_frame (m : LiveServerMessage) (s : AppState) :
    (applyTranscription m s).conversation = s.conversation ∧
    (applyTranscription m s).outputAudioContext = s.outputAudioContext := by
  unfold applyTranscription
  rcases scOutputTranscription m with _ | t
  · rcases scInputTranscription m with _ | t <;> simp
  · simp

/-- Turn-completion stage is the identity when the message carries no
turn-complete signal. -/
theorem applyTurnComplete_not_complete (now : Nat) (m : LiveServerMessage)
    (s : AppState) (h : turnCompleteOf m = false) :
    applyTurnComplete now m s = s := by
  unfold applyTurnComplete
  simp [h]

/-- C3 counterexample: a message carrying both an output fragment and an
input fragment drops the input fragment — the else-if in the transcription
stage appends only the output fragment, so the user accumulator stays
empty instead of receiving the carried fragment b. -/
theorem handleMessage_drops_input_when_both :
    scInputTranscription (mkBothTransMsg ("a") ("b")) = some ⟨"b"⟩ ∧
    (handleMessage 0 0 (mkBothTransMsg ("a") ("b")) listeningState).1.userInput ≠
      listeningState.userInput ++ "b" ∧
    (handleMessage 0 0 (mkBothTransMsg ("a") ("b")) listeningState).1.aiOutput =
      listeningState.aiOutput ++ "a" := by
  decide

/-- C3 amended: for a message without a turn-complete signal, an output
fragment it carries is appended to the assistant accumulator (and the
user accumulator is untouched); an input fragment it carries is appended
to the user accumulator only when the message carries no output fragment
(and the assistant accumulator is untouched).  A message carrying both
appends only the output fragment. -/
theorem handleMessage_appends_fragments (now : Nat) (ct : ℚ)
    (m : LiveServerMessage) (s : AppState) (h : turnCompleteOf m = false) :
    (∀ t, scOutputTranscription m = some t →
      (handleMessage now ct m s).1.aiOutput = s.aiOutput ++ t.text ∧
      (handleMessage now ct m s).1.userInput = s.userInput) ∧
    (scOutputTranscription m = none → ∀ t, scInputTranscription m = some t →
      (handleMessage now ct m s).1.userInput = s.userInput ++ t.text ∧
      (handleMessage now ct m s).1.aiOutput = s.aiOutput) := by
  have frame : ∀ s' : AppState,
      (applyInterrupted m (applyAudio ct m s').1).userInput = s'.userInput ∧
      (applyInterrupted m (applyAudio ct m s').1).aiOutput = s'.aiOutput := by
    intro s'
    have h1 := applyAudio_frame ct m s'
    have h2 := applyInterrupted_frame m (applyAudio ct m s').1
    exact ⟨h2.1.trans h1.1, h2.2.1.trans h1.2.1⟩
  simp only [handleMessage]
  rw [applyTurnComplete_not_complete now m _ h]
  constructor
  · intro t ht
    have := frame (applyTranscription m s)
    unfold applyTranscription at this ⊢
    rw [ht] at this ⊢
    exact ⟨this.2, this.1⟩
  · intro hout t hin
    have := frame (applyTranscription m s)
    unfold applyTranscription at this ⊢
    rw [hout, hin] at this ⊢
    exact ⟨this.1, this.2⟩

/-- C3 witness: the amended append behavior at a concrete output-only
message and at the concrete both-fragments message. -/
theorem handleMessage_appends_fragments_witness :
    (∀ t, scOutputTranscription (mkOutputMsg ("Hi ")) = some t →
      (handleMessage 0 0 (mkOutputMsg ("Hi ")) listeningState).1.aiOutput =
        listeningState.aiOutput ++ t.text ∧
      (handleMessage 0 0 (mkOutputMsg ("Hi ")) listeningState).1.userInput =
        listeningState.userInput) ∧
    (scOutputTranscription (mkOutputMsg ("Hi ")) = none →
      ∀ t, scInputTranscription (mkOutputMsg ("Hi ")) = some t →
      (handleMessage 0 0 (mkOutputMsg ("Hi ")) listeningState).1.userInput =
        listeningState.userInput ++ t.text ∧
      (handleMessage 0 0 (mkOutputMsg ("Hi ")) listeningState).1.aiOutput =
        listeningState.aiOutput) :=
  handleMessage_appends_fragments 0 0 (mkOutputMsg ("Hi ")) listeningState (by decide)

/-- C1: the claim says a failed start leaves status error after teardown.
On the code, startSession with the microphone permission denied records
the user-facing error message and transiently sets status error, but the
teardown it awaits (stopSession) unconditionally sets status idle as its
very first step, so after start and teardown have completed the status is
idle, not error — whatever the outcomes of the external close
operations. -/
theorem startSession_permission_denied_idle_not_error :
    ∀ env : StopEnv, ∃ s : AppState,
      startSession false env initialAppState = Except.ok s ∧
      s.error = some ("Could not access microphone. Please grant permission and try again.") ∧
      s.status = AssistantStatus.idle ∧
      ¬ s.status = AssistantStatus.error :=
  fun _ => ⟨_, rfl, rfl, rfl, by decide⟩

/-- C2 counterexample: the capture conversion maps the sample value 1.0
to -32768, not to the claimed 32767. -/
theorem convertSample_one_ne_32767 : convertSample 1 ≠ 32767 := by
  norm_num [convertSample, ratTrunc, toInt16]

/-- C2 amended: under the defined scaling (multiply by 32768, truncate,
wrap per 16-bit integer conversion) the sample value 1.0 converts to
-32768: the product 32768 is out of the signed 16-bit range and wraps. -/
theorem convertSample_one_eq_neg32768 :
    convertSample 1 = -32768 ∧ processAudioBlock [1] = [-32768] := by
  constructor
  · norm_num [convertSample, ratTrunc, toInt16]
  · norm_num [processAudioBlock, convertSample, ratTrunc, toInt16]

/-- C5: after handleMessage processes a message carrying the interrupted
signal, the active playback set is empty, the next-start-time cursor is
zero and the status is listening, from any prior state. -/
theorem handleMessage_interrupted_clears (now : Nat) (ct : ℚ)
    (m : LiveServerMessage) (s : AppState) (h : interruptedOf m = true) :
    (handleMessage now ct m s).1.audioSources = [] ∧
    (handleMessage now ct m s).1.nextAudioStartTime = 0 ∧
    (handleMessage now ct m s).1.status = AssistantStatus.listening := by
  unfold handleMessage applyInterrupted
  simp [h]

/-- C5 witness: the interruption guarantee at a concrete interrupted
message and a concrete state. -/
theorem handleMessage_interrupted_clears_witness :
    (handleMessage 0 0 mkInterruptedMsg listeningState).1.audioSources = [] ∧
    (handleMessage 0 0 mkInterruptedMsg listeningState).1.nextAudioStartTime = 0 ∧
    (handleMessage 0 0 mkInterruptedMsg listeningState).1.status = AssistantStatus.listening :=
  handleMessage_interrupted_clears 0 0 mkInterruptedMsg listeningState (by decide)

/-- C7: feeding the user fragments Hel, lo and the assistant fragments
Hi and there, followed by turn-complete at clock 100, appends exactly the
two messages user Hello (id 100) then assistant Hi there (id 101) to the
empty log, and leaves both accumulators empty. -/
theorem helloEvents_two_messages :
    (processMessages helloEvents listeningState).1.conversation =
      [⟨100, Speaker.user, "Hello"⟩, ⟨101, Speaker.ai, "Hi there"⟩] ∧
    (processMessages helloEvents listeningState).1.userInput = "" ∧
    (processMessages helloEvents listeningState).1.aiOutput = "" := by
  decide

/-- Equation: a message carrying only an output fragment appends it to
the assistant accumulator and does nothing else. -/
theorem handleMessage_outputMsg (now : Nat) (ct : ℚ) (t : String) (s : AppState) :
    handleMessage now ct (mkOutputMsg t) s = ({ s with aiOutput := s.aiOutput ++ t }, []) :=
  rfl

/-- Equation: a message carrying only the turn-complete signal reduces to
the turn-completion stage and emits no scheduling effect. -/
theorem handleMessage_tcMsg (now : Nat) (ct : ℚ) (s : AppState) :
    handleMessage now ct mkTurnCompleteMsg s = (applyTurnComplete now mkTurnCompleteMsg s, []) :=
  rfl

/-- Folding string append from an arbitrary accumulator equals the
accumulator followed by the join. -/
theorem string_foldl_append (l : List String) (a : String) :
    l.foldl (· ++ ·) a = a ++ String.join l := by
  induction l generalizing a with
  | nil => exact (String.append_empty a).symm
  | cons x xs ih =>
    show xs.foldl (· ++ ·) (a ++ x) = a ++ String.join (x :: xs)
    rw [ih (a ++ x), String.append_assoc]
    have : String.join (x :: xs) = x ++ String.join xs := by
      show xs.foldl (· ++ ·) ("" ++ x) = x ++ String.join xs
      rw [String.empty_append, ih x]
    rw [this]

/-- Join of a cons. -/
theorem string_join_cons (a : String) (l : List String) :
    String.join (a :: l) = a ++ String.join l := by
  show l.foldl (· ++ ·) ("" ++ a) = a ++ String.join l
  rw [String.empty_append, string_foldl_append]

/-- Processing a concatenation of event lists processes the first list and
then the second from the resulting state, concatenating the traces. -/
theorem processMessages_append (l₁ l₂ : List (Nat × ℚ × LiveServerMessage)) (s : AppState) :
    processMessages (l₁ ++ l₂) s =
      ((processMessages l₂ (processMessages l₁ s).1).1,
       (processMessages l₁ s).2 ++ (processMessages l₂ (processMessages l₁ s).1).2) := by
  induction l₁ generalizing s with
  | nil => simp [processMessages]
  | cons e rest ih =>
    obtain ⟨now, ct, m⟩ := e
    simp [processMessages, ih]

/-- Running a list of output-only fragment messages appends their join to
the assistant accumulator and changes nothing else. -/
theorem processMessages_outputMsgs (frags : List String) (now : Nat) (ct : ℚ) (s : AppState) :
    processMessages (frags.map (fun t => (now, ct, mkOutputMsg t))) s =
      ({ s with aiOutput := s.aiOutput ++ String.join frags }, []) := by
  induction frags generalizing s with
  | nil =>
    show (s, []) = ({ s with aiOutput := s.aiOutput ++ "" }, [])
    rw [String.append_empty]
  | cons t rest ih =>
    show (let p := handleMessage now ct (mkOutputMsg t) s
          let q := processMessages (rest.map (fun t => (now, ct, mkOutputMsg t))) p.1
          (q.1, p.2 ++ q.2)) =
      ({ s with aiOutput := s.aiOutput ++ String.join (t :: rest) }, [])
    rw [handleMessage_outputMsg]
    simp only [ih]
    rw [string_join_cons, String.append_assoc]
    exact rfl

/-- Equation: a turn-complete signal arriving when the user accumulator is
empty and the assistant accumulator has nonempty trimmed text appends
exactly the assistant message, clears both accumulators and sets status
listening. -/
theorem applyTurnComplete_only_ai (now : Nat) (s : AppState) (hu : s.userInput = "")
    (hne : jsTrim s.aiOutput ≠ "") :
    applyTurnComplete now mkTurnCompleteMsg s =
      { s with conversation := s.conversation ++ [⟨now + 1, Speaker.ai, jsTrim s.aiOutput⟩],
               userInput := "", aiOutput := "", status := AssistantStatus.listening } := by
  have hturn : turnCompleteOf mkTurnCompleteMsg = true := rfl
  unfold applyTurnComplete
  rw [hturn, if_pos rfl, hu]
  have h1 : jsTrim ("") = "" := rfl
  rw [h1]
  simp [hne]

/-- C8: when only assistant transcription fragments arrive (the user
accumulator holds nothing) and then a turn-complete signal, exactly one
message — the assistant one, with the trimmed accumulated text — is
appended to the conversation log; no empty user message is created and
both accumulators end empty. -/
theorem only_assistant_fragments_single_message (frags : List String) (now : Nat)
    (s : AppState) (hu : s.userInput = "") (ha : s.aiOutput = "")
    (hne : jsTrim (String.join frags) ≠ "") :
    (processMessages (frags.map (fun t => (now, 0, mkOutputMsg t)) ++
        [(now, 0, mkTurnCompleteMsg)]) s).1.conversation =
      s.conversation ++ [⟨now + 1, Speaker.ai, jsTrim (String.join frags)⟩] ∧
    (processMessages (frags.map (fun t => (now, 0, mkOutputMsg t)) ++
        [(now, 0, mkTurnCompleteMsg)]) s).1.userInput = "" ∧
    (processMessages (frags.map (fun t => (now, 0, mkOutputMsg t)) ++
        [(now, 0, mkTurnCompleteMsg)]) s).1.aiOutput = "" := by
  rw [processMessages_append, processMessages_outputMsgs]
  have hu1 : ({ s with aiOutput := s.aiOutput ++ String.join frags } : AppState).userInput = "" := hu
  have hne1 : jsTrim ({ s with aiOutput := s.aiOutput ++ String.join frags } : AppState).aiOutput ≠ "" := by
    show jsTrim (s.aiOutput ++ String.join frags) ≠ ""
    rw [ha, String.empty_append]
    exact hne
  have hstep : (processMessages [(now, 0, mkTurnCompleteMsg)]
      ({ s with aiOutput := s.aiOutput ++ String.join frags })).1 =
      applyTurnComplete now mkTurnCompleteMsg
        ({ s with aiOutput := s.aiOutput ++ String.join frags }) := by
    show (handleMessage now 0 mkTurnCompleteMsg _).1 = _
    rw [handleMessage_tcMsg]
  rw [hstep, applyTurnComplete_only_ai now _ hu1 hne1]
  refine ⟨?_, rfl, rfl⟩
  show s.conversation ++ [⟨now + 1, Speaker.ai, jsTrim (s.aiOutput ++ String.join frags)⟩] =
    s.conversation ++ [⟨now + 1, Speaker.ai, jsTrim (String.join frags)⟩]
  rw [ha, String.empty_append]

/-- C8 witness: the single-assistant-message guarantee at the concrete
fragments Hi and there from the post-open state. -/
theorem only_assistant_fragments_single_message_witness :
    (processMessages (["Hi ", "there"].map (fun t => (200, 0, mkOutputMsg t)) ++
        [(200, 0, mkTurnCompleteMsg)]) listeningState).1.conversation =
      listeningState.conversation ++
        [⟨200 + 1, Speaker.ai, jsTrim (String.join ["Hi ", "there"])⟩] ∧
    (processMessages (["Hi ", "there"].map (fun t => (200, 0, mkOutputMsg t)) ++
        [(200, 0, mkTurnCompleteMsg)]) listeningState).1.userInput = "" ∧
    (processMessages (["Hi ", "there"].map (fun t => (200, 0, mkOutputMsg t)) ++
        [(200, 0, mkTurnCompleteMsg)]) listeningState).1.aiOutput = "" :=
  only_assistant_fragments_single_message ["Hi ", "there"] 200 listeningState
    (by decide) (by decide) (by decide)

/-- Durations of decoded audio buffers are nonnegative. -/
theorem audioDuration_nonneg (n : Nat) : 0 ≤ audioDuration n := by
  unfold audioDuration
  positivity

/-- Equation: one processMessages step. -/
theorem processMessages_cons (now : Nat) (ct : ℚ) (m : LiveServerMessage)
    (rest : List (Nat × ℚ × LiveServerMessage)) (s : AppState) :
    processMessages ((now, ct, m) :: rest) s =
      ((processMessages rest (handleMessage now ct m s).1).1,
       (handleMessage now ct m s).2 ++ (processMessages rest (handleMessage now ct m s).1).2) :=
  rfl

/-- Equation: a message carrying only a nonempty audio payload, arriving
while the output context exists, sets status speaking, schedules one
source at `max cursor currentTime`, advances the cursor by the payload
duration and registers the source. -/
theorem handleMessage_audioMsg (now : Nat) (ct : ℚ) (n : Nat) (c : AudioCtxHandle)
    (s : AppState) (hn : n ≠ 0) (hc : s.outputAudioContext = some c) :
    handleMessage now ct (mkAudioMsg n) s =
      ({ s with status := AssistantStatus.speaking,
                nextAudioStartTime := max s.nextAudioStartTime ct + audioDuration n,
                audioSources := s.audioSources ++ [s.nextSourceId],
                nextSourceId := s.nextSourceId + 1 },
       [⟨max s.nextAudioStartTime ct, audioDuration n⟩]) := by
  simp [handleMessage, applyTranscription, applyTurnComplete, applyAudio, applyInterrupted,
        mkAudioMsg, scOutputTranscription, scInputTranscription, turnCompleteOf, interruptedOf,
        base64AudioOf, hn, hc]

/-- Induction core for the playback-scheduling invariant: over a run of
audio payloads each scheduled start time dominates the output-clock
reading of its step, the trace chains back-to-back, and every start time
dominates the initial cursor. -/
theorem audio_schedule_aux (ps : List (ℚ × Nat)) : ∀ s : AppState,
    s.outputAudioContext.isSome = true → (∀ p ∈ ps, p.2 ≠ 0) →
    List.Forall₂ (fun (p : ℚ × Nat) (e : ScheduledAudio) => p.1 ≤ e.start) ps
      (processMessages (audioEvents ps) s).2 ∧
    List.Chain' (fun a b => a.start + a.duration ≤ b.start)
      (processMessages (audioEvents ps) s).2 ∧
    (∀ e ∈ (processMessages (audioEvents ps) s).2, s.nextAudioStartTime ≤ e.start) := by
  induction ps with
  | nil =>
    intro s _ _
    exact ⟨List.Forall₂.nil, List.chain'_nil, by intro e h; cases h⟩
  | cons p rest ih =>
    intro s hctx hnz
    obtain ⟨ct, n⟩ := p
    obtain ⟨c, hc⟩ := Option.isSome_iff_exists.mp hctx
    have hn : n ≠ 0 := hnz (ct, n) (List.mem_cons_self _ _)
    have hstep := handleMessage_audioMsg 0 ct n c s hn hc
    have hrun : processMessages (audioEvents ((ct, n) :: rest)) s =
        ((processMessages (audioEvents rest) (handleMessage 0 ct (mkAudioMsg n) s).1).1,
         (handleMessage 0 ct (mkAudioMsg n) s).2 ++
           (processMessages (audioEvents rest) (handleMessage 0 ct (mkAudioMsg n) s).1).2) := by
      show processMessages ((0, ct, mkAudioMsg n) :: audioEvents rest) s = _
      exact processMessages_cons 0 ct (mkAudioMsg n) (audioEvents rest) s
    rw [hrun, hstep]
    dsimp only
    simp only [List.singleton_append]
    set s1 : AppState :=
      { s with status := AssistantStatus.speaking,
               nextAudioStartTime := max s.nextAudioStartTime ct + audioDuration n,
               audioSources := s.audioSources ++ [s.nextSourceId],
               nextSourceId := s.nextSourceId + 1 } with hs1
    have hctx1 : s1.outputAudioContext.isSome = true := by
      show s.outputAudioContext.isSome = true
      exact hctx
    have hnz1 : ∀ q ∈ rest, q.2 ≠ 0 := fun q hq => hnz q (List.mem_cons_of_mem _ hq)
    obtain ⟨ihF, ihC, ihB⟩ := ih s1 hctx1 hnz1
    have hcursor : s1.nextAudioStartTime = max s.nextAudioStartTime ct + audioDuration n := rfl
    refine ⟨List.Forall₂.cons (le_max_right _ _) ihF, ?_, ?_⟩
    · rw [List.chain'_cons']
      refine ⟨?_, ihC⟩
      intro b hb
      have hbmem : b ∈ (processMessages (audioEvents rest) s1).2 :=
        List.mem_of_mem_head? hb
      have := ihB b hbmem
      rw [hcursor] at this
      exact this
    · intro e he
      rcases List.mem_cons.mp he with he | he
      · rw [he]
        exact le_max_left _ _
      · have h1 := ihB e he
        rw [hcursor] at h1
        have h2 : s.nextAudioStartTime ≤ max s.nextAudioStartTime ct + audioDuration n :=
          le_trans (le_max_left _ _) (le_add_of_nonneg_right (audioDuration_nonneg n))
        exact le_trans h2 h1

/-- C4: over any sequence of received audio payloads (handled while the
output context exists), each scheduled start time is at least the output
clock reading at its scheduling moment, and each is at least the previous
start time plus the previous payload duration — gapless, non-overlapping
ordering. -/
theorem audio_scheduling_gapless (s : AppState) (ps : List (ℚ × Nat))
    (hctx : s.outputAudioContext.isSome = true) (hnz : ∀ p ∈ ps, p.2 ≠ 0) :
    List.Forall₂ (fun (p : ℚ × Nat) (e : ScheduledAudio) => p.1 ≤ e.start) ps
      (processMessages (audioEvents ps) s).2 ∧
    List.Chain' (fun a b => a.start + a.duration ≤ b.start)
      (processMessages (audioEvents ps) s).2 :=
  ⟨(audio_schedule_aux ps s hctx hnz).1, (audio_schedule_aux ps s hctx hnz).2.1⟩

/-- C4 witness: the scheduling guarantees at a concrete state with an
open output context and two concrete payloads. -/
theorem audio_scheduling_gapless_witness :
    List.Forall₂ (fun (p : ℚ × Nat) (e : ScheduledAudio) => p.1 ≤ e.start) [(2, 480), (1, 960)]
      (processMessages (audioEvents [(2, 480), (1, 960)])
        { listeningState with outputAudioContext := some ⟨false⟩ }).2 ∧
    List.Chain' (fun a b => a.start + a.duration ≤ b.start)
      (processMessages (audioEvents [(2, 480), (1, 960)])
        { listeningState with outputAudioContext := some ⟨false⟩ }).2 :=
  audio_scheduling_gapless { listeningState with outputAudioContext := some ⟨false⟩ }
    [(2, 480), (1, 960)] (by decide) (by decide)

/-- Characterization of the conversation log across one turn-completion
stage: it grows by a batch of zero, one or two messages whose ids are
`now` and `now + 1` in strictly increasing order, and grows only on a
turn-complete signal. -/
theorem applyTurnComplete_conversation (now : Nat) (m : LiveServerMessage) (s : AppState) :
    ∃ new : List Message,
      (applyTurnComplete now m s).conversation = s.conversation ++ new ∧
      List.Pairwise (· < ·) (new.map Message.id) ∧
      (∀ msg ∈ new, msg.id = now ∨ msg.id = now + 1) ∧
      (turnCompleteOf m = false → new = []) := by
  unfold applyTurnComplete
  by_cases h : turnCompleteOf m = true
  · rw [h, if_pos rfl]
    by_cases h1 : jsTrim s.userInput = "" <;> by_cases h2 : jsTrim s.aiOutput = ""
    · refine ⟨[], ?_, List.Pairwise.nil, by simp, fun _ => rfl⟩
      simp [h1, h2]
    · refine ⟨[⟨now + 1, Speaker.ai, jsTrim s.aiOutput⟩], ?_, ?_, ?_, fun hf => nomatch hf⟩
      · simp [h1, h2]
      · simp
      · simp
    · refine ⟨[⟨now, Speaker.user, jsTrim s.userInput⟩], ?_, ?_, ?_, fun hf => nomatch hf⟩
      · simp [h1, h2]
      · simp
      · simp
    · refine ⟨[⟨now, Speaker.user, jsTrim s.userInput⟩, ⟨now + 1, Speaker.ai, jsTrim s.aiOutput⟩],
        ?_, ?_, ?_, fun hf => nomatch hf⟩
      · simp [h1, h2, List.append_assoc]
      · simp
      · simp
  · have hb : turnCompleteOf m = false := by
      cases hval : turnCompleteOf m
      · rfl
      · exact absurd hval h
    rw [hb]
    exact ⟨[], by simp, List.Pairwise.nil, by simp, fun _ => rfl⟩

/-- Characterization of the conversation log across one full
handleMessage call: only the turn-completion stage touches it, so it grows
by a batch of messages with ids `now` and `now + 1` in order, and only on
a turn-complete signal. -/
theorem handleMessage_conversation (now : Nat) (ct : ℚ) (m : LiveServerMessage) (s : AppState) :
    ∃ new : List Message,
      (handleMessage now ct m s).1.conversation = s.conversation ++ new ∧
      List.Pairwise (· < ·) (new.map Message.id) ∧
      (∀ msg ∈ new, msg.id = now ∨ msg.id = now + 1) ∧
      (turnCompleteOf m = false → new = []) := by
  have hconv : (handleMessage now ct m s).1.conversation =
      (applyTurnComplete now m (applyTranscription m s)).conversation := by
    show (applyInterrupted m (applyAudio ct m (applyTurnComplete now m (applyTranscription m s))).1).conversation = _
    rw [(applyInterrupted_frame m _).2.2.1, (applyAudio_frame ct m _).2.2.1]
  obtain ⟨new, h1, h2, h3, h4⟩ := applyTurnComplete_conversation now m (applyTranscription m s)
  refine ⟨new, ?_, h2, h3, h4⟩
  rw [hconv, h1, (applyTranscription_frame m s).1]

/-- Induction core for id monotonicity: processing events whose
turn-complete clock readings are separated by at least 2 keeps the log ids
strictly increasing and bounded by the final clock bound. -/
theorem conversation_ids_aux (evs : List (Nat × ℚ × LiveServerMessage)) : ∀ (b : Nat) (s : AppState),
    clockSep b evs = true →
    (∀ msg ∈ s.conversation, msg.id < b) →
    List.Pairwise (· < ·) (s.conversation.map Message.id) →
    List.Pairwise (· < ·) ((processMessages evs s).1.conversation.map Message.id) ∧
    (∀ msg ∈ (processMessages evs s).1.conversation, msg.id < clockBound b evs) := by
  induction evs with
  | nil =>
    intro b s _ hbound hpw
    exact ⟨hpw, hbound⟩
  | cons e rest ih =>
    intro b s hsep hbound hpw
    obtain ⟨now, ct, m⟩ := e
    obtain ⟨new, hconv, hnewpw, hnewid, hnewtc⟩ := handleMessage_conversation now ct m s
    rw [processMessages_cons]
    dsimp only
    by_cases htc : turnCompleteOf m = true
    · have hsep2 : (decide (b ≤ now) && clockSep (now + 2) rest) = true := by
        rw [show clockSep b ((now, ct, m) :: rest) =
          (if turnCompleteOf m then decide (b ≤ now) && clockSep (now + 2) rest
           else clockSep b rest) from rfl, htc, if_pos rfl] at hsep
        exact hsep
      have hble : b ≤ now := by
        have := (Bool.and_eq_true _ _).mp hsep2
        exact of_decide_eq_true this.1
      have hsep3 : clockSep (now + 2) rest = true := ((Bool.and_eq_true _ _).mp hsep2).2
      have hbound1 : ∀ msg ∈ (handleMessage now ct m s).1.conversation, msg.id < now + 2 := by
        intro msg hmsg
        rw [hconv] at hmsg
        rcases List.mem_append.mp hmsg with hold | hnew
        · have := hbound msg hold
          omega
        · rcases hnewid msg hnew with h | h <;> omega
      have hpw1 : List.Pairwise (· < ·) ((handleMessage now ct m s).1.conversation.map Message.id) := by
        rw [hconv, List.map_append, List.pairwise_append]
        refine ⟨hpw, hnewpw, ?_⟩
        intro i hi j hj
        obtain ⟨mi, hmi, hmieq⟩ := List.mem_map.mp hi
        obtain ⟨mj, hmj, hmjeq⟩ := List.mem_map.mp hj
        have h1 : i < b := hmieq ▸ hbound mi hmi
        have h2 : j = now ∨ j = now + 1 := hmjeq ▸ hnewid mj hmj
        rcases h2 with h2 | h2 <;> omega
      have hbeq : clockBound b ((now, ct, m) :: rest) = clockBound (now + 2) rest := by
        rw [show clockBound b ((now, ct, m) :: rest) =
          (if turnCompleteOf m then clockBound (now + 2) rest else clockBound b rest) from rfl,
          htc, if_pos rfl]
      rw [hbeq]
      exact ih (now + 2) (handleMessage now ct m s).1 hsep3 hbound1 hpw1
    · have hfalse : turnCompleteOf m = false := by
        cases hval : turnCompleteOf m
        · rfl
        · exact absurd hval htc
      have hnil : new = [] := hnewtc hfalse
      have hsep2 : clockSep b rest = true := by
        rw [show clockSep b ((now, ct, m) :: rest) =
          (if turnCompleteOf m then decide (b ≤ now) && clockSep (now + 2) rest
           else clockSep b rest) from rfl, hfalse] at hsep
        simpa using hsep
      have hconv1 : (handleMessage now ct m s).1.conversation = s.conversation := by
        rw [hconv, hnil, List.append_nil]
      have hbeq : clockBound b ((now, ct, m) :: rest) = clockBound b rest := by
        rw [show clockBound b ((now, ct, m) :: rest) =
          (if turnCompleteOf m then clockBound (now + 2) rest else clockBound b rest) from rfl,
          hfalse]
        simp
      rw [hbeq]
      exact ih b (handleMessage now ct m s).1 hsep2 (hconv1 ▸ hbound) (hconv1 ▸ hpw)

/-- C6 counterexample: with a nondecreasing millisecond clock that reads 5
during the first turn completion and 6 during the second, a reachable
conversation log has ids 5, 6, 6 — the assistant message of the first turn
(id `5 + 1`) collides with the user message of the second turn (id 6), so
ids are neither unique nor strictly increasing. -/
theorem conversation_ids_collide :
    (processMessages twoTurnEvents initialAppState).1.conversation.map Message.id = [5, 6, 6] ∧
    ¬ ((processMessages twoTurnEvents initialAppState).1.conversation.map Message.id).Nodup := by
  decide

/-- C6 amended: message ids are unique and strictly increasing in log
order provided the millisecond clock readings at successive turn-complete
events are separated by at least 2 (the separation the `Date.now() + 1` id
scheme needs), starting from a log whose ids already satisfy the
invariant below the first reading. -/
theorem conversation_ids_strictly_increasing (evs : List (Nat × ℚ × LiveServerMessage))
    (s : AppState) (b : Nat) (hsep : clockSep b evs = true)
    (hbound : ∀ msg ∈ s.conversation, msg.id < b)
    (hpw : List.Pairwise (· < ·) (s.conversation.map Message.id)) :
    List.Pairwise (· < ·) ((processMessages evs s).1.conversation.map Message.id) ∧
    ((processMessages evs s).1.conversation.map Message.id).Nodup := by
  have h := conversation_ids_aux evs b s hsep hbound hpw
  exact ⟨h.1, h.1.imp ne_of_lt⟩

/-- C6 witness: the amended invariant on a concrete two-turn run whose
turn completions happen at clocks 5 and 7. -/
theorem conversation_ids_strictly_increasing_witness :
    List.Pairwise (· < ·) ((processMessages
      [(5, 0, mkInputMsg ("a")), (5, 0, mkOutputMsg ("x")), (5, 0, mkTurnCompleteMsg),
       (7, 0, mkInputMsg ("b")), (7, 0, mkTurnCompleteMsg)]
      initialAppState).1.conversation.map Message.id) ∧
    ((processMessages
      [(5, 0, mkInputMsg ("a")), (5, 0, mkOutputMsg ("x")), (5, 0, mkTurnCompleteMsg),
       (7, 0, mkInputMsg ("b")), (7, 0, mkTurnCompleteMsg)]
      initialAppState).1.conversation.map Message.id).Nodup :=
  conversation_ids_strictly_increasing
    [(5, 0, mkInputMsg ("a")), (5, 0, mkOutputMsg ("x")), (5, 0, mkTurnCompleteMsg),
     (7, 0, mkInputMsg ("b")), (7, 0, mkTurnCompleteMsg)]
    initialAppState 0 (by decide) (by simp [initialAppState]) (by simp [initialAppState])

/-- C9: calling stop twice in succession from the initial state (no
session ever started) performs no fallible external operation — so it
cannot throw, whatever the outcomes of the external close operations
would be — and leaves status idle. -/
theorem stopSession_twice_from_initial_idle :
    ∀ env₁ env₂ : StopEnv,
      (stopSession env₁ initialAppState).bind (stopSession env₂) =
        Except.ok initialAppState ∧
      initialAppState.status = AssistantStatus.idle :=
  fun _ _ => ⟨rfl, rfl⟩

/-- C10: the session-close callback leaves every piece of observable
state unchanged — status (in particular it does not become error),
conversation log, error message, accumulators, playback cursor, active
playback set, and every resource handle; it only emits a log line. -/
theorem handleClose_state_unchanged (s : AppState) :
    (handleClose s).1 = s ∧
    (handleClose s).1.status = s.status ∧
    (handleClose s).1.conversation = s.conversation ∧
    (handleClose s).1.error = s.error ∧
    (handleClose s).1.userInput = s.userInput ∧
    (handleClose s).1.aiOutput = s.aiOutput ∧
    (handleClose s).1.nextAudioStartTime = s.nextAudioStartTime ∧
    (handleClose s).1.audioSources = s.audioSources ∧
    (handleClose s).1.liveSession = s.liveSession ∧
    (handleClose s).1.inputAudioContext = s.inputAudioContext ∧
    (handleClose s).1.outputAudioContext = s.outputAudioContext ∧
    (handleClose s).1.microphoneStream = s.microphoneStream ∧
    (handleClose s).1.scriptProcessorNode = s.scriptProcessorNode :=
  ⟨rfl, rfl, rfl, rfl, rfl, rfl, rfl, rfl, rfl, rfl, rfl, rfl, rfl⟩
